import Mathlib

/-!
# CSXCAD parameter objects (`src/ParameterObjects.h`)

A shallow embedding of the classes `Parameter`, `LinearParameter`,
`ParameterSet`, `ParameterScalar` and `ParameterVector`.

Modelling conventions
* A C++ `double` is an IEEE 754 binary64 value (`Double`): NaN, the two
  infinities or a finite value; comparisons with NaN are false, and every
  arithmetic result is rounded to nearest, ties to even, with overflow to an
  infinity and gradual underflow.  The sign of a zero is not recorded.
* An object is a record of its data members; a member function that mutates
  `this` is a function returning the new record.
* `int` results are integers in `[INT_MIN, INT_MAX]`; a conversion or an
  addition whose result leaves that range has no defined result (`none`).
* A member whose body is not part of the header (`LinearParameter::SetValue`,
  `LinearParameter::IncreaseStep`, the `LinearParameter` copy constructor,
  `ParameterSet::LinkParameter`, `CountSweepSteps`, `InitSweep`,
  `NextSweepPos`, `ParameterScalar::Evaluate`) is either passed as an argument
  to the code that calls it, or modelled from the specification and marked as
  such.
* A `ParameterSet` exclusively owns its parameters: for the sweep functions its
  vector is the list of the owned objects.  Where the identity of objects
  matters (`InsertParameter`), objects live on an explicit store and the vector
  holds addresses.
-/

namespace CSXCAD

/-! ## C++ `double` -/

/-- A value of the C++ type `double` (IEEE 754 binary64): not-a-number, the two
infinities, or a finite value given by the rational it denotes.  The sign of a
zero is not recorded. -/
inductive Double where
  | nan
  | ninf
  | pinf
  | fin (q : ℚ)
  deriving DecidableEq

/-- The comparison `a < b` of two `double`s: false when an operand is NaN. -/
def Double.lt : Double → Double → Bool
  | .nan, _ => false
  | _, .nan => false
  | _, .ninf => false
  | .ninf, _ => true
  | .pinf, _ => false
  | .fin _, .pinf => true
  | .fin a, .fin b => decide (a < b)

/-- The comparison `a <= b` of two `double`s: false when an operand is NaN. -/
def Double.le : Double → Double → Bool
  | .nan, _ => false
  | _, .nan => false
  | .ninf, _ => true
  | _, .pinf => true
  | .pinf, _ => false
  | .fin _, .ninf => false
  | .fin a, .fin b => decide (a ≤ b)

instance : LT Double := ⟨fun a b => Double.lt a b = true⟩

instance : LE Double := ⟨fun a b => Double.le a b = true⟩

instance (a b : Double) : Decidable (a < b) := by
  show Decidable (Double.lt a b = true); infer_instance

instance (a b : Double) : Decidable (a ≤ b) := by
  show Decidable (Double.le a b = true); infer_instance

/-- Rounding of a rational to the nearest integer, a tie going to the even
neighbour. -/
def roundHalfEven (m : ℚ) : ℤ :=
  if m - ⌊m⌋ < 1 / 2 then ⌊m⌋
  else if 1 / 2 < m - ⌊m⌋ then ⌊m⌋ + 1
  else if ⌊m⌋ % 2 = 0 then ⌊m⌋ else ⌊m⌋ + 1

/-- The exponent of the unit in the last place of the binary64 values around a
rational `x`: 52 below the binary exponent of `x`, and at least -1074 (the
subnormal range). -/
def Double.ulpExp (x : ℚ) : ℤ := max (Int.log 2 |x| - 52) (-1074)

/-- The binary64 result of an operation whose exact result is the rational `x`
(default rounding mode, round to nearest, ties to even): `x` is rounded to a
multiple of its unit in the last place; a result of magnitude `2^1024` or more
overflows to an infinity. -/
def Double.round (x : ℚ) : Double :=
  if x = 0 then .fin 0
  else if (2 : ℚ) ^ (1024 : ℕ) ≤ |(roundHalfEven (x / (2 : ℚ) ^ Double.ulpExp x) : ℚ)
      * (2 : ℚ) ^ Double.ulpExp x| then
    (if 0 < x then .pinf else .ninf)
  else .fin ((roundHalfEven (x / (2 : ℚ) ^ Double.ulpExp x) : ℚ) * (2 : ℚ) ^ Double.ulpExp x)

/-- The sum `a + b` of two `double`s. -/
def Double.add : Double → Double → Double
  | .nan, _ => .nan
  | _, .nan => .nan
  | .pinf, .ninf => .nan
  | .ninf, .pinf => .nan
  | .pinf, _ => .pinf
  | _, .pinf => .pinf
  | .ninf, _ => .ninf
  | _, .ninf => .ninf
  | .fin a, .fin b => Double.round (a + b)

/-- The difference `a - b` of two `double`s. -/
def Double.sub : Double → Double → Double
  | .nan, _ => .nan
  | _, .nan => .nan
  | .pinf, .pinf => .nan
  | .ninf, .ninf => .nan
  | .pinf, _ => .pinf
  | _, .ninf => .pinf
  | .ninf, _ => .ninf
  | _, .pinf => .ninf
  | .fin a, .fin b => Double.round (a - b)

/-- The quotient `a / b` of two `double`s.  A finite non-zero value divided by
zero is an infinity; its sign depends on the sign of the zero, which is not
recorded: the sign of the dividend is used. -/
def Double.div : Double → Double → Double
  | .nan, _ => .nan
  | _, .nan => .nan
  | .pinf, .pinf => .nan
  | .pinf, .ninf => .nan
  | .ninf, .pinf => .nan
  | .ninf, .ninf => .nan
  | .pinf, .fin b => if 0 ≤ b then .pinf else .ninf
  | .ninf, .fin b => if 0 ≤ b then .ninf else .pinf
  | .fin _, .pinf => .fin 0
  | .fin _, .ninf => .fin 0
  | .fin a, .fin b =>
    if b = 0 then (if a = 0 then .nan else if 0 < a then .pinf else .ninf)
    else Double.round (a / b)

instance : Add Double := ⟨Double.add⟩

instance : Sub Double := ⟨Double.sub⟩

instance : Div Double := ⟨Double.div⟩


/-! ## Data model -/

/-- The discriminant `Parameter::ParameterType`. -/
inductive ParameterType where
  | Const
  | Linear
  deriving DecidableEq, Repr

/-- Data members of `class Parameter` (the member `Type` is named `Type_`,
since `Type` is reserved). -/
structure Parameter where
  sName : String
  dValue : Double
  dValueSaved : Double
  bModified : Bool
  bSweep : Bool
  Type_ : ParameterType
  deriving DecidableEq

/-- Data members of `class LinearParameter : public Parameter`. -/
structure LinearParameter extends Parameter where
  dMin : Double
  dMax : Double
  dStep : Double
  deriving DecidableEq

/-! ## `Parameter` member functions -/

/-- The constructor `Parameter(const Parameter* parameter)`: it assigns `sName`,
`dValue`, `bModified`, `Type` and `bSweep`; `dValueSaved` is not initialised, so
its content `uninit` is arbitrary.  The result is the pair of the argument
object after the call (the body only reads through the pointer) and the newly
built object. -/
def Parameter.copyCtor (parameter : Parameter) (uninit : Double) : Parameter × Parameter :=
  (parameter,
   { sName := parameter.sName
     dValue := parameter.dValue
     dValueSaved := uninit
     bModified := true
     bSweep := parameter.bSweep
     Type_ := parameter.Type_ })

/-- The accessor `GetType() {return Type;}`. -/
def Parameter.GetType (p : Parameter) : ParameterType := p.Type_

/-- The accessor `GetName() {return sName;}`. -/
def Parameter.GetName (p : Parameter) : String := p.sName

/-- The mutator `SetName(Paraname) {sName=string(Paraname);bModified=true;}`. -/
def Parameter.SetName (p : Parameter) (Paraname : String) : Parameter :=
  { p with sName := Paraname, bModified := true }

/-- The accessor `virtual double GetValue() {return dValue;}`. -/
def Parameter.GetValue (p : Parameter) : Double := p.dValue

/-- The mutator `virtual void SetValue(double val) {dValue=val;bModified=true;}`. -/
def Parameter.SetValue (p : Parameter) (val : Double) : Parameter :=
  { p with dValue := val, bModified := true }

/-- The accessor `GetModified() {return bModified;}`. -/
def Parameter.GetModified (p : Parameter) : Bool := p.bModified

/-- The mutator `SetModified(bool mod) {bModified=mod;}`. -/
def Parameter.SetModified (p : Parameter) (mod : Bool) : Parameter :=
  { p with bModified := mod }

/-- The base `virtual bool GetSweep() {return false;}`. -/
def Parameter.GetSweep (_p : Parameter) : Bool := false

/-- The mutator `SetSweep(bool mod) {bSweep=mod;}`. -/
def Parameter.SetSweep (p : Parameter) (mod : Bool) : Parameter :=
  { p with bSweep := mod }

/-- The base `virtual void InitSweep() {}`. -/
def Parameter.InitSweep (p : Parameter) : Parameter := p

/-- The snapshot `Save() {dValueSaved=dValue;}`. -/
def Parameter.Save (p : Parameter) : Parameter :=
  { p with dValueSaved := p.dValue }

/-- The rollback `Restore() {dValue=dValueSaved;}`. -/
def Parameter.Restore (p : Parameter) : Parameter :=
  { p with dValue := p.dValueSaved }

/-- The base `virtual bool IncreaseStep() {return false;}`: the returned flag
and the object after the call. -/
def Parameter.IncreaseStep (p : Parameter) : Bool × Parameter := (false, p)

/-- The base `virtual int CountSteps() {return 1;}`. -/
def Parameter.CountSteps (_p : Parameter) : ℤ := 1

/-- The base `virtual Parameter* Clone() {return new Parameter(this);}`: the
receiver after the call and the new object. -/
def Parameter.Clone (p : Parameter) (uninit : Double) : Parameter × Parameter :=
  Parameter.copyCtor p uninit

/-! ## `int` conversion -/

/-- Largest `int`. -/
def INT_MAX : ℤ := 2147483647

/-- Smallest `int`. -/
def INT_MIN : ℤ := -2147483648

/-- The conversion `(int)x` of a `double`: the fractional part is discarded
(truncation toward zero); there is no defined result when the truncated value
is not representable as an `int`, in particular for NaN and the infinities. -/
def castInt : Double → Option ℤ
  | .fin x =>
    if INT_MIN ≤ Int.tdiv x.num (x.den : ℤ) ∧ Int.tdiv x.num (x.den : ℤ) ≤ INT_MAX then
      some (Int.tdiv x.num (x.den : ℤ))
    else none
  | _ => none

/-- The `int` addition `a + b`: no defined result on overflow. -/
def intAdd (a b : ℤ) : Option ℤ :=
  if INT_MIN ≤ a + b ∧ a + b ≤ INT_MAX then some (a + b) else none

/-! ## `LinearParameter` member functions -/

/-- The inherited accessor `GetValue`. -/
def LinearParameter.GetValue (p : LinearParameter) : Double := p.toParameter.GetValue

/-- The override `virtual bool GetSweep() {return bSweep;}`. -/
def LinearParameter.GetSweep (p : LinearParameter) : Bool := p.bSweep

/-- The inherited mutator `SetSweep`. -/
def LinearParameter.SetSweep (p : LinearParameter) (mod : Bool) : LinearParameter :=
  { p with toParameter := p.toParameter.SetSweep mod }

/-- The override `virtual void InitSweep() {dValue=dMin;}`. -/
def LinearParameter.InitSweep (p : LinearParameter) : LinearParameter :=
  { p with dValue := p.dMin }

/-- The inherited snapshot `Save`. -/
def LinearParameter.Save (p : LinearParameter) : LinearParameter :=
  { p with toParameter := p.toParameter.Save }

/-- The inherited rollback `Restore`. -/
def LinearParameter.Restore (p : LinearParameter) : LinearParameter :=
  { p with toParameter := p.toParameter.Restore }

/-- The override `virtual int CountSteps() {return (int)((dMax-dMin)/dStep)+1;}`:
the difference and the quotient are `double` operations. -/
def LinearParameter.CountSteps (p : LinearParameter) : Option ℤ :=
  (castInt ((p.dMax - p.dMin) / p.dStep)).bind (fun t => intAdd t 1)

/-- The accessor `GetMin() {return dMin;}`. -/
def LinearParameter.GetMin (p : LinearParameter) : Double := p.dMin

/-- The accessor `GetMax() {return dMax;}`. -/
def LinearParameter.GetMax (p : LinearParameter) : Double := p.dMax

/-- The accessor `GetStep() {return dStep;}`. -/
def LinearParameter.GetStep (p : LinearParameter) : Double := p.dStep

/-- The mutator `SetMin(double min) {dMin=min; if (dMax<dMin) dMax=dMin; SetValue(dValue);}`.
The virtual call `SetValue` is the argument `setValue`. -/
def LinearParameter.SetMin (setValue : LinearParameter → Double → LinearParameter)
    (p : LinearParameter) (min : Double) : LinearParameter :=
  let p1 : LinearParameter := { p with dMin := min }
  let p2 : LinearParameter := if p1.dMax < p1.dMin then { p1 with dMax := p1.dMin } else p1
  setValue p2 p2.dValue

/-- The mutator `SetMax(double max) {dMax=max; if (dMax<dMin) dMax=dMin; SetValue(dValue);}`.
The virtual call `SetValue` is the argument `setValue`. -/
def LinearParameter.SetMax (setValue : LinearParameter → Double → LinearParameter)
    (p : LinearParameter) (max : Double) : LinearParameter :=
  let p1 : LinearParameter := { p with dMax := max }
  let p2 : LinearParameter := if p1.dMax < p1.dMin then { p1 with dMax := p1.dMin } else p1
  setValue p2 p2.dValue

/-- The mutator `SetStep(double step) {dStep=step; if (dStep<0) dStep=0; SetValue(dValue);}`.
The virtual call `SetValue` is the argument `setValue`. -/
def LinearParameter.SetStep (setValue : LinearParameter → Double → LinearParameter)
    (p : LinearParameter) (step : Double) : LinearParameter :=
  let p1 : LinearParameter := { p with dStep := step }
  let p2 : LinearParameter :=
    if p1.dStep < Double.fin 0 then { p1 with dStep := Double.fin 0 } else p1
  setValue p2 p2.dValue

/-- Modelled from the spec: the body of `LinearParameter::SetValue(double val)`,
which the header only declares.  The specification says it "assigns into the
domain" so that the "current value is re-clamped into [min,max]", and that
`SetValue` "marks modified": a value above the maximum becomes the maximum, a
value below the minimum becomes the minimum, any other value (NaN included,
for which both comparisons are false) is stored as is. -/
def LinearParameter.SetValue (p : LinearParameter) (val : Double) : LinearParameter :=
  let v : Double := if p.dMax < val then p.dMax else if val < p.dMin then p.dMin else val
  { p with dValue := v, bModified := true }

/-- Modelled from the spec: the body of `LinearParameter::IncreaseStep()`, which
the header only declares.  The specification says it "advances value by one
step; returns false once a further increment would exceed max". -/
def LinearParameter.IncreaseStep (p : LinearParameter) : Bool × LinearParameter :=
  if p.dMax < p.dValue + p.dStep then (false, p)
  else (true, { p with dValue := p.dValue + p.dStep })

/-! ## Call sequences -/

/-- One call of a bound setter of `LinearParameter`, with its argument. -/
inductive SetterCall where
  | SetMin (min : Double)
  | SetMax (max : Double)
  | SetStep (step : Double)
  deriving DecidableEq

/-- The argument of a setter call. -/
def SetterCall.arg : SetterCall → Double
  | .SetMin min => min
  | .SetMax max => max
  | .SetStep step => step

/-- Execute one setter call. -/
def SetterCall.run (setValue : LinearParameter → Double → LinearParameter)
    (p : LinearParameter) : SetterCall → LinearParameter
  | .SetMin min => p.SetMin setValue min
  | .SetMax max => p.SetMax setValue max
  | .SetStep step => p.SetStep setValue step

/-- The states reached after each call of a sequence of setter calls, in order
(the state before the first call is not listed). -/
def SetterCall.trace (setValue : LinearParameter → Double → LinearParameter) :
    LinearParameter → List SetterCall → List LinearParameter
  | _, [] => []
  | p, c :: cs => SetterCall.run setValue p c :: SetterCall.trace setValue (SetterCall.run setValue p c) cs

/-- The bound invariant of a `LinearParameter`: `min <= max` and `step >= 0`. -/
def LinearParameter.BoundsOk (p : LinearParameter) : Prop :=
  p.dMin ≤ p.dMax ∧ Double.fin 0 ≤ p.dStep

instance (p : LinearParameter) : Decidable p.BoundsOk := by
  unfold LinearParameter.BoundsOk; infer_instance

/-- The current value lies in the stored domain:
`GetMin() <= GetValue() <= GetMax()`. -/
def LinearParameter.InDomain (p : LinearParameter) : Prop :=
  p.GetMin ≤ p.GetValue ∧ p.GetValue ≤ p.GetMax

instance (p : LinearParameter) : Decidable p.InDomain := by
  unfold LinearParameter.InDomain; infer_instance

/-- The setter `setValue` writes none of `dMin`, `dMax`, `dStep`. -/
def KeepsBounds (setValue : LinearParameter → Double → LinearParameter) : Prop :=
  ∀ (q : LinearParameter) (v : Double),
    (setValue q v).dMin = q.dMin ∧ (setValue q v).dMax = q.dMax ∧ (setValue q v).dStep = q.dStep

/-- One value mutation of a parameter: `SetValue(val)`, `InitSweep()` or
`IncreaseStep()`. -/
inductive ValueCall where
  | SetValue (val : Double)
  | InitSweep
  | IncreaseStep
  deriving DecidableEq

/-- Execute one value mutation on a base (Const) `Parameter`. -/
def Parameter.runValueCall (p : Parameter) : ValueCall → Parameter
  | .SetValue val => p.SetValue val
  | .InitSweep => p.InitSweep
  | .IncreaseStep => p.IncreaseStep.2

/-- Execute one value mutation on a `LinearParameter` (virtual dispatch selects
the overrides). -/
def LinearParameter.runValueCall (p : LinearParameter) : ValueCall → LinearParameter
  | .SetValue val => p.SetValue val
  | .InitSweep => p.InitSweep
  | .IncreaseStep => p.IncreaseStep.2

/-! ## Objects behind a `Parameter*` -/

/-- An object reached through a `Parameter*`: its dynamic class is `Parameter`
or `LinearParameter`; virtual calls dispatch on it. -/
inductive AnyParameter where
  | base (p : Parameter)
  | linear (p : LinearParameter)
  deriving DecidableEq

/-- Virtual `GetValue()` (not overridden). -/
def AnyParameter.GetValue : AnyParameter → Double
  | .base p => p.GetValue
  | .linear p => p.GetValue

/-- Virtual `GetSweep()`. -/
def AnyParameter.GetSweep : AnyParameter → Bool
  | .base p => p.GetSweep
  | .linear p => p.GetSweep

/-- Virtual `InitSweep()`. -/
def AnyParameter.InitSweep : AnyParameter → AnyParameter
  | .base p => .base p.InitSweep
  | .linear p => .linear p.InitSweep

/-- Virtual `IncreaseStep()`: the returned flag and the object after the call. -/
def AnyParameter.IncreaseStep : AnyParameter → Bool × AnyParameter
  | .base p => (p.IncreaseStep.1, .base p.IncreaseStep.2)
  | .linear p => (p.IncreaseStep.1, .linear p.IncreaseStep.2)

/-- Virtual `CountSteps()`. -/
def AnyParameter.CountSteps : AnyParameter → Option ℤ
  | .base p => some p.CountSteps
  | .linear p => p.CountSteps

/-- Non-virtual `Save()`. -/
def AnyParameter.Save : AnyParameter → AnyParameter
  | .base p => .base p.Save
  | .linear p => .linear p.Save

/-- Non-virtual `Restore()`. -/
def AnyParameter.Restore : AnyParameter → AnyParameter
  | .base p => .base p.Restore
  | .linear p => .linear p.Restore

/-- Modelled from the spec: the copy constructor
`LinearParameter(const LinearParameter *parameter)`, which the header only
declares.  The specification asks for a "discriminant-correct duplicate": the
base part is built by `Parameter(const Parameter*)` and min, max and step are
copied. -/
def LinearParameter.copyCtor (parameter : LinearParameter) (uninit : Double) :
    LinearParameter × LinearParameter :=
  (parameter,
   { toParameter := (Parameter.copyCtor parameter.toParameter uninit).2
     dMin := parameter.dMin
     dMax := parameter.dMax
     dStep := parameter.dStep })

/-- The override `virtual Parameter* Clone() {return new LinearParameter(this);}`. -/
def LinearParameter.Clone (p : LinearParameter) (uninit : Double) :
    LinearParameter × LinearParameter :=
  LinearParameter.copyCtor p uninit

/-- Virtual `Clone()`: the receiver after the call and the new object. -/
def AnyParameter.Clone : AnyParameter → Double → AnyParameter × AnyParameter
  | .base p, uninit => (.base (p.Clone uninit).1, .base (p.Clone uninit).2)
  | .linear p, uninit => (.linear (p.Clone uninit).1, .linear (p.Clone uninit).2)

/-! ## `ParameterSet` -/

/-- Data members of `class ParameterSet`.  The set exclusively owns the objects
its pointers refer to, and the sweep functions neither create nor share
objects, so `vParameter` lists the owned objects themselves, in vector order. -/
structure ParameterSet where
  vParameter : List AnyParameter
  ParameterString : String
  ParameterValueString : String
  bModified : Bool
  SweepPara : ℤ
  deriving DecidableEq

/-- The exception `std::out_of_range` thrown by `vector::at`. -/
inductive OutOfRange where
  | out_of_range
  deriving DecidableEq

/-- The checked access `v.at(index)` of `std::vector`. -/
def vectorAt {α : Type} (v : List α) (index : ℕ) : Except OutOfRange α :=
  match v.get? index with
  | some x => .ok x
  | none => .error OutOfRange.out_of_range

/-- The accessor `GetQtyParameter() {return vParameter.size();}`. -/
def ParameterSet.GetQtyParameter (s : ParameterSet) : ℕ := s.vParameter.length

/-- The accessor
`GetParameter(size_t index) {if (index<vParameter.size()) return vParameter.at(index); else return NULL;}`:
the returned pointer (`none` is `NULL`) and the set after the call, or the
exception that escapes. -/
def ParameterSet.GetParameter (s : ParameterSet) (index : ℕ) :
    Except OutOfRange (Option AnyParameter × ParameterSet) :=
  if index < s.vParameter.length then
    match vectorAt s.vParameter index with
    | .ok x => .ok (some x, s)
    | .error e => .error e
  else .ok (none, s)

/-- The accessor `GetParaSetModified() {return bModified;}`. -/
def ParameterSet.GetParaSetModified (s : ParameterSet) : Bool := s.bModified

/-- The mutator `SetParaSetModified(bool val) {bModified=val;}`. -/
def ParameterSet.SetParaSetModified (s : ParameterSet) (val : Bool) : ParameterSet :=
  { s with bModified := val }

/-- An `int` result: defined when it lies in `[INT_MIN, INT_MAX]`. -/
def intResult (t : ℤ) : Option ℤ :=
  if INT_MIN ≤ t ∧ t ≤ INT_MAX then some t else none

/-- The `CountSteps()` results of the sweep-enabled parameters (those with
`GetSweep() == true`), in vector order; undefined when one of them is. -/
def sweepCounts : List AnyParameter → Option (List ℤ)
  | [] => some []
  | p :: ps =>
    if p.GetSweep then
      match p.CountSteps, sweepCounts ps with
      | some c, some cs => some (c :: cs)
      | _, _ => none
    else sweepCounts ps

/-- Modelled from the spec: the body of `ParameterSet::CountSweepSteps(int SweepMode)`,
which the header only declares.  The specification says: over the owned
Variables with `GetSweep()==true`, in full mode (1) "total = product of
`CountSteps()` over every sweep-enabled Variable", in independent mode (2)
"total = max of `CountSteps()` over sweep-enabled Variables".  The
specification gives no value for another mode, nor for the maximum of an empty
subset: there is no result then. -/
def ParameterSet.CountSweepSteps (s : ParameterSet) (SweepMode : ℤ) : Option ℤ :=
  if SweepMode = 1 then
    (sweepCounts s.vParameter).bind (fun cs => intResult cs.prod)
  else if SweepMode = 2 then
    (sweepCounts s.vParameter).bind (fun cs => cs.max?)
  else none

/-- Modelled from the spec: the body of `ParameterSet::InitSweep()`, which the
header only declares.  The specification says it "calls `InitSweep` on every
sweep-enabled Variable (reset to minimum) and resets the enumeration cursor to
the first position". -/
def ParameterSet.InitSweep (s : ParameterSet) : ParameterSet :=
  { s with
    vParameter := s.vParameter.map (fun p => if p.GetSweep then p.InitSweep else p)
    SweepPara := 0 }

/-- The rational a finite `double` denotes (0 for NaN and the infinities). -/
def Double.toRat : Double → ℚ
  | .fin q => q
  | _ => 0

/-- The free store: cell `a` holds the object that a `Parameter*` of address `a`
points to. -/
structure Store where
  cells : List AnyParameter
  deriving DecidableEq

/-- The object a pointer refers to (`none`: no object at that address). -/
def Store.read (h : Store) (a : ℕ) : Option AnyParameter := h.cells.get? a

/-- Assignment to the object a pointer refers to. -/
def Store.write (h : Store) (a : ℕ) (o : AnyParameter) : Store :=
  { cells := h.cells.set a o }

/-- The expression `new T(...)`: the object is placed at an address not in use;
the result is that address and the store after the allocation. -/
def Store.alloc (h : Store) (o : AnyParameter) : ℕ × Store :=
  (h.cells.length, { cells := h.cells ++ [o] })

/-- The call `newPara->Clone()` on the store: the virtual `Clone()` of the
object at `newPara` runs, the receiver is stored back and the duplicate is
allocated; the result is the returned pointer and the store after the call.
There is no result when `newPara` refers to no object. -/
def Store.Clone (h : Store) (newPara : ℕ) (uninit : Double) : Option (ℕ × Store) :=
  match h.read newPara with
  | none => none
  | some o => some ((h.write newPara (o.Clone uninit).1).alloc (o.Clone uninit).2)

/-- The pointer-level state of a `ParameterSet`, used where the identity of
objects matters: the free store and the pointers held in `vParameter`. -/
structure PointerSet where
  store : Store
  vParameter : List ℕ
  deriving DecidableEq

/-- The member
`InsertParameter(Parameter* newPara) {return LinkParameter(newPara->Clone());}`.
The virtual `LinkParameter`, whose body the header does not give, is the
argument `LinkParameter`: from the state and a pointer it gives the state after
the call and the returned `size_t`. -/
def PointerSet.InsertParameter (LinkParameter : PointerSet → ℕ → PointerSet × ℕ)
    (s : PointerSet) (newPara : ℕ) (uninit : Double) : Option (PointerSet × ℕ) :=
  match s.store.Clone newPara uninit with
  | none => none
  | some r => some (LinkParameter { s with store := r.2 } r.1)

/-- The member `AddParameter(Parameter* newPara) {return LinkParameter(newPara);}`. -/
def PointerSet.AddParameter (LinkParameter : PointerSet → ℕ → PointerSet × ℕ)
    (s : PointerSet) (newPara : ℕ) : PointerSet × ℕ :=
  LinkParameter s newPara

/-- A `LinkParameter` body writes no stored object other than the one it is
given. -/
def LinkWritesOnlyArgument (LinkParameter : PointerSet → ℕ → PointerSet × ℕ) : Prop :=
  ∀ (s : PointerSet) (a b : ℕ), b ≠ a → (LinkParameter s a).1.store.read b = s.store.read b

/-- Modelled from the spec: the body of `ParameterSet::LinkParameter`, which the
header only declares: it "will add/link the given parameter into the
ParameterSet and take ownership", returning the "number of current parameter". -/
def PointerSet.LinkParameter (s : PointerSet) (newPara : ℕ) : PointerSet × ℕ :=
  ({ s with vParameter := s.vParameter ++ [newPara] }, s.vParameter.length + 1)

/-! ## `ParameterScalar` and `ParameterVector` -/

/-- Data members of `class ParameterScalar`; the non-owning `clParaSet` pointer
is left to the evaluation function, which reads the set it is bound to. -/
structure ParameterScalar where
  bModified : Bool
  ParameterMode : Bool
  sValue : String
  dValue : Double
  deriving DecidableEq

/-- Data members of `class ParameterVector`. -/
structure ParameterVector where
  XCoord : ParameterScalar
  YCoord : ParameterScalar
  ZCoord : ParameterScalar
  deriving DecidableEq

/-- The member
`int Evaluate() {return XCoord.Evaluate()+YCoord.Evaluate()+ZCoord.Evaluate();}`.
`ParameterScalar::Evaluate`, whose body the header does not give, is the
argument `Evaluate`: the returned error code and the scalar after the call.
The result is the returned `int` (undefined on overflow) and the vector after
the call. -/
def ParameterVector.Evaluate (Evaluate : ParameterScalar → ℤ × ParameterScalar)
    (v : ParameterVector) : Option ℤ × ParameterVector :=
  ((intAdd (Evaluate v.XCoord).1 (Evaluate v.YCoord).1).bind
      (fun t => intAdd t (Evaluate v.ZCoord).1),
   { XCoord := (Evaluate v.XCoord).2
     YCoord := (Evaluate v.YCoord).2
     ZCoord := (Evaluate v.ZCoord).2 })

/-! ## Call sequences on the value domain -/

/-- One call among `Save`, `Restore`, `InitSweep`, `SetMin`, `SetMax`, `SetStep`
of a `LinearParameter`. -/
inductive DomainCall where
  | Save
  | Restore
  | InitSweep
  | SetMin (min : Double)
  | SetMax (max : Double)
  | SetStep (step : Double)
  deriving DecidableEq

/-- Execute one call; the setters use the modelled `LinearParameter::SetValue`. -/
def DomainCall.run (p : LinearParameter) : DomainCall → LinearParameter
  | .Save => p.Save
  | .Restore => p.Restore
  | .InitSweep => p.InitSweep
  | .SetMin min => p.SetMin LinearParameter.SetValue min
  | .SetMax max => p.SetMax LinearParameter.SetValue max
  | .SetStep step => p.SetStep LinearParameter.SetValue step

/-- The states reached after each call of a sequence, in order. -/
def DomainCall.trace : LinearParameter → List DomainCall → List LinearParameter
  | _, [] => []
  | p, c :: cs => DomainCall.run p c :: DomainCall.trace (DomainCall.run p c) cs

/-- The discipline of a call sequence under which `Restore()` is safe: every
`Restore()` follows a `Save()` of the sequence with no `SetMin` or `SetMax` call
in between, and no `SetMin` or `SetMax` argument is NaN.  The flag tells
whether such a `Save()` is in force at the start of the list. -/
def DomainCall.Disciplined : Bool → List DomainCall → Prop
  | _, [] => True
  | _, .Save :: cs => DomainCall.Disciplined true cs
  | saved, .Restore :: cs => saved = true ∧ DomainCall.Disciplined saved cs
  | saved, .InitSweep :: cs => DomainCall.Disciplined saved cs
  | _, .SetMin min :: cs => min ≠ Double.nan ∧ DomainCall.Disciplined false cs
  | _, .SetMax max :: cs => max ≠ Double.nan ∧ DomainCall.Disciplined false cs
  | saved, .SetStep _ :: cs => DomainCall.Disciplined saved cs

/-! ## Sample objects -/

/-- The `double` nearest to 0.1. -/
def d0_1 : Double := Double.fin (3602879701896397 / 36028797018963968)

/-- A Const parameter `a = 5`, unmodified, sweep flag set. -/
def sampleConst : Parameter :=
  { sName := "a", dValue := Double.fin 5, dValueSaved := Double.fin 0, bModified := false,
    bSweep := true, Type_ := ParameterType.Const }

/-- A Linear parameter `l = 4` on the domain `[0, 10]` with step `3`. -/
def sampleLinear : LinearParameter :=
  { sName := "l", dValue := Double.fin 4, dValueSaved := Double.fin 0, bModified := false,
    bSweep := true, Type_ := ParameterType.Linear, dMin := Double.fin 0,
    dMax := Double.fin 10, dStep := Double.fin 3 }

/-- A Linear parameter on the domain `[0, 1]` with the `double` step 0.1. -/
def sampleTenth : LinearParameter :=
  { sName := "t", dValue := Double.fin 0, dValueSaved := Double.fin 0, bModified := false,
    bSweep := true, Type_ := ParameterType.Linear, dMin := Double.fin 0,
    dMax := Double.fin 1, dStep := d0_1 }

/-- A Linear parameter with 3 sweep positions: domain `[0, 2]`, step `1`. -/
def sampleLinear3 : LinearParameter :=
  { sName := "u", dValue := Double.fin 1, dValueSaved := Double.fin 7, bModified := false,
    bSweep := true, Type_ := ParameterType.Linear, dMin := Double.fin 0,
    dMax := Double.fin 2, dStep := Double.fin 1 }

/-- A Linear parameter with 4 sweep positions: domain `[0, 3]`, step `1`. -/
def sampleLinear4 : LinearParameter :=
  { sName := "v", dValue := Double.fin 2, dValueSaved := Double.fin 7, bModified := false,
    bSweep := true, Type_ := ParameterType.Linear, dMin := Double.fin 0,
    dMax := Double.fin 3, dStep := Double.fin 1 }

/-- A set owning a 3-position Linear parameter, a Const parameter and a
4-position Linear parameter. -/
def sampleSet : ParameterSet :=
  { vParameter := [AnyParameter.linear sampleLinear3, AnyParameter.base sampleConst,
      AnyParameter.linear sampleLinear4]
    ParameterString := "", ParameterValueString := "", bModified := false, SweepPara := 0 }

/-- A pointer-level set that holds no pointer yet, with a Linear object at
address 0 and a Const object at address 1 on the store. -/
def samplePointerSet : PointerSet :=
  { store := { cells := [AnyParameter.linear sampleLinear, AnyParameter.base sampleConst] }
    vParameter := [] }

/-- A literal scalar. -/
def sampleScalar : ParameterScalar :=
  { bModified := true, ParameterMode := false, sValue := "", dValue := Double.fin 1 }

/-- An expression scalar. -/
def sampleExpression : ParameterScalar :=
  { bModified := true, ParameterMode := true, sValue := "a+b", dValue := Double.fin 0 }

/-- A vector with an expression as its Y coordinate. -/
def sampleVector : ParameterVector :=
  { XCoord := sampleScalar, YCoord := sampleExpression, ZCoord := sampleScalar }

/-- A sample evaluation: an expression scalar reports error code 3, a literal
scalar reports 0; the scalar is marked unmodified. -/
def sampleEvaluate (ps : ParameterScalar) : ℤ × ParameterScalar :=
  (if ps.ParameterMode then 3 else 0, { ps with bModified := false })

/-! ## Lemmas on `double` -/

theorem Double.fin_lt_fin (a b : ℚ) : Double.fin a < Double.fin b ↔ a < b := by
  show Double.lt (Double.fin a) (Double.fin b) = true ↔ a < b
  simp [Double.lt]

theorem Double.ne_nan_of_le {a b : Double} (h : a ≤ b) : a ≠ Double.nan ∧ b ≠ Double.nan := by
  have h' : Double.le a b = true := h
  cases a <;> cases b <;> simp [Double.le] at h' ⊢

theorem Double.le_refl_of_ne_nan {a : Double} (h : a ≠ Double.nan) : a ≤ a := by
  show Double.le a a = true
  cases a <;> simp [Double.le] at h ⊢

theorem Double.le_of_not_lt {a b : Double} (ha : a ≠ Double.nan) (hb : b ≠ Double.nan)
    (h : ¬ a < b) : b ≤ a := by
  have h' : ¬ Double.lt a b = true := h
  show Double.le b a = true
  cases a <;> cases b <;> simp [Double.lt, Double.le] at h' ha hb ⊢
  exact h'

theorem Double.le_of_le_of_le {a b c : Double} (h1 : a ≤ b) (h2 : b ≤ c) : a ≤ c := by
  have h1' : Double.le a b = true := h1
  have h2' : Double.le b c = true := h2
  show Double.le a c = true
  cases a <;> cases b <;> cases c <;> simp [Double.le] at h1' h2' ⊢
  exact h1'.trans h2'

theorem Double.not_le_of_lt {a b : Double} (h : a < b) : ¬ b ≤ a := by
  have h' : Double.lt a b = true := h
  show ¬ Double.le b a = true
  cases a <;> cases b <;> simp [Double.lt, Double.le] at h' ⊢
  exact h'

theorem Double.not_lt_of_le {a b : Double} (h : a ≤ b) : ¬ b < a := by
  have h' : Double.le a b = true := h
  show ¬ Double.lt b a = true
  cases a <;> cases b <;> simp [Double.lt, Double.le] at h' ⊢
  exact h'

theorem roundHalfEven_eq (m : ℚ) (k : ℤ) (h : |m - k| < 1 / 2) : roundHalfEven m = k := by
  rw [abs_lt] at h
  obtain ⟨h1, h2⟩ := h
  have hf1 : k - 1 ≤ ⌊m⌋ := by
    rw [Int.le_floor]; push_cast; linarith
  have hf2 : ⌊m⌋ ≤ k := by
    have : ⌊m⌋ < k + 1 := by
      rw [Int.floor_lt]; push_cast; linarith
    omega
  have hfm : (⌊m⌋ : ℚ) ≤ m := Int.floor_le m
  have hmf : m < ⌊m⌋ + 1 := Int.lt_floor_add_one m
  unfold roundHalfEven
  by_cases hk : ⌊m⌋ = k
  · rw [hk]
    rw [if_pos (by linarith)]
  · have hk' : ⌊m⌋ = k - 1 := by omega
    have hc : ((⌊m⌋ : ℤ) : ℚ) = (k : ℚ) - 1 := by rw [hk']; push_cast; ring
    rw [if_neg (by rw [hc]; linarith), if_pos (by rw [hc]; linarith), hk']
    ring

theorem roundHalfEven_nonneg (m : ℚ) (h : 0 ≤ m) : 0 ≤ roundHalfEven m := by
  have hf : 0 ≤ ⌊m⌋ := Int.floor_nonneg.mpr h
  unfold roundHalfEven
  split_ifs <;> omega

theorem Int_log_two_eq (x : ℚ) (e : ℤ) (hx : 0 < x) (h1 : (2 : ℚ) ^ e ≤ x)
    (h2 : x < (2 : ℚ) ^ (e + 1)) : Int.log 2 x = e := by
  have a1 : e ≤ Int.log 2 x := (Int.zpow_le_iff_le_log (by norm_num) hx).mp (by exact_mod_cast h1)
  have a2 : Int.log 2 x < e + 1 :=
    (Int.lt_zpow_iff_log_lt (by norm_num) hx).mp (by exact_mod_cast h2)
  omega

/-- A certificate for a rounding: `x` lies in the binade of exponent `e`, `y` is
a multiple of the unit in the last place there, closer to `x` than half a unit,
and finite. -/
theorem Double.round_eq_fin (x y : ℚ) (e k : ℤ) (hx : x ≠ 0)
    (h1 : (2 : ℚ) ^ e ≤ |x|) (h2 : |x| < (2 : ℚ) ^ (e + 1))
    (hy : y = (k : ℚ) * (2 : ℚ) ^ (max (e - 52) (-1074)))
    (hc : |x - y| < (2 : ℚ) ^ (max (e - 52) (-1074)) / 2)
    (hf : |y| < (2 : ℚ) ^ (1024 : ℕ)) : Double.round x = Double.fin y := by
  have hlog : Int.log 2 |x| = e := Int_log_two_eq |x| e (abs_pos.mpr hx) h1 h2
  have hu : Double.ulpExp x = max (e - 52) (-1074) := by
    unfold Double.ulpExp; rw [hlog]
  have hpos : (0 : ℚ) < (2 : ℚ) ^ (max (e - 52) (-1074)) := zpow_pos (by norm_num) _
  have hr : roundHalfEven (x / (2 : ℚ) ^ (max (e - 52) (-1074))) = k := by
    apply roundHalfEven_eq
    have : x / (2 : ℚ) ^ (max (e - 52) (-1074)) - k
        = (x - y) / (2 : ℚ) ^ (max (e - 52) (-1074)) := by
      rw [hy]; field_simp; ring
    rw [this, abs_div, abs_of_pos hpos, div_lt_iff₀ hpos]
    linarith
  unfold Double.round
  rw [if_neg hx, hu, hr, ← hy, if_neg (not_le.mpr hf)]

theorem Double.round_nonneg (x : ℚ) (hx : 0 ≤ x) :
    Double.round x = Double.pinf ∨ ∃ y : ℚ, 0 ≤ y ∧ Double.round x = Double.fin y := by
  unfold Double.round
  by_cases h0 : x = 0
  · right; exact ⟨0, le_refl _, by rw [if_pos h0]⟩
  · have hpos : 0 < x := lt_of_le_of_ne hx (Ne.symm h0)
    rw [if_neg h0]
    split_ifs with h
    · left; rfl
    · right
      refine ⟨_, ?_, rfl⟩
      apply mul_nonneg
      · exact_mod_cast roundHalfEven_nonneg _ (div_nonneg hx (le_of_lt (zpow_pos (by norm_num) _)))
      · exact le_of_lt (zpow_pos (by norm_num) _)

/-! ## Shared lemmas -/

/-- The modelled `LinearParameter::SetValue` writes none of the bounds. -/
theorem keepsBounds_SetValue : KeepsBounds LinearParameter.SetValue := by
  intro q v
  simp [LinearParameter.SetValue]

/-- Bounds stored by `SetMin`. -/
theorem SetMin_bounds (setValue : LinearParameter → Double → LinearParameter)
    (hsv : KeepsBounds setValue) (p : LinearParameter) (min : Double) :
    (p.SetMin setValue min).dMin = min ∧
    (p.SetMin setValue min).dMax = (if p.dMax < min then min else p.dMax) ∧
    (p.SetMin setValue min).dStep = p.dStep := by
  unfold LinearParameter.SetMin
  simp only [hsv _ _]
  by_cases h : p.dMax < min <;> simp [h]

/-- Bounds stored by `SetMax`. -/
theorem SetMax_bounds (setValue : LinearParameter → Double → LinearParameter)
    (hsv : KeepsBounds setValue) (p : LinearParameter) (max : Double) :
    (p.SetMax setValue max).dMin = p.dMin ∧
    (p.SetMax setValue max).dMax = (if max < p.dMin then p.dMin else max) ∧
    (p.SetMax setValue max).dStep = p.dStep := by
  unfold LinearParameter.SetMax
  simp only [hsv _ _]
  by_cases h : max < p.dMin <;> simp [h]

/-- Bounds stored by `SetStep`. -/
theorem SetStep_bounds (setValue : LinearParameter → Double → LinearParameter)
    (hsv : KeepsBounds setValue) (p : LinearParameter) (step : Double) :
    (p.SetStep setValue step).dMin = p.dMin ∧
    (p.SetStep setValue step).dMax = p.dMax ∧
    (p.SetStep setValue step).dStep = (if step < Double.fin 0 then Double.fin 0 else step) := by
  unfold LinearParameter.SetStep
  simp only [hsv _ _]
  by_cases h : step < Double.fin 0 <;> simp [h]

/-- One setter call with an argument that is not NaN preserves the bound
invariant. -/
theorem run_boundsOk (setValue : LinearParameter → Double → LinearParameter)
    (hsv : KeepsBounds setValue) (p : LinearParameter) (hp : p.BoundsOk) (c : SetterCall)
    (hc : c.arg ≠ Double.nan) :
    (SetterCall.run setValue p c).BoundsOk := by
  obtain ⟨hmm, hst⟩ := hp
  obtain ⟨hmin, hmax⟩ := Double.ne_nan_of_le hmm
  cases c with
  | SetMin min =>
    have hc' : min ≠ Double.nan := hc
    obtain ⟨h1, h2, h3⟩ := SetMin_bounds setValue hsv p min
    refine ⟨?_, ?_⟩
    · show (p.SetMin setValue min).dMin ≤ (p.SetMin setValue min).dMax
      rw [h1, h2]
      split_ifs with h
      · exact Double.le_refl_of_ne_nan hc'
      · exact Double.le_of_not_lt hmax hc' h
    · show Double.fin 0 ≤ (p.SetMin setValue min).dStep
      rw [h3]; exact hst
  | SetMax max =>
    have hc' : max ≠ Double.nan := hc
    obtain ⟨h1, h2, h3⟩ := SetMax_bounds setValue hsv p max
    refine ⟨?_, ?_⟩
    · show (p.SetMax setValue max).dMin ≤ (p.SetMax setValue max).dMax
      rw [h1, h2]
      split_ifs with h
      · exact Double.le_refl_of_ne_nan hmin
      · exact Double.le_of_not_lt hc' hmin h
    · show Double.fin 0 ≤ (p.SetMax setValue max).dStep
      rw [h3]; exact hst
  | SetStep step =>
    have hc' : step ≠ Double.nan := hc
    obtain ⟨h1, h2, h3⟩ := SetStep_bounds setValue hsv p step
    refine ⟨?_, ?_⟩
    · show (p.SetStep setValue step).dMin ≤ (p.SetStep setValue step).dMax
      rw [h1, h2]; exact hmm
    · show Double.fin 0 ≤ (p.SetStep setValue step).dStep
      rw [h3]
      split_ifs with h
      · exact Double.le_refl_of_ne_nan (by simp)
      · exact Double.le_of_not_lt hc' (by simp) h

/-- The modelled `LinearParameter::SetValue` stores a value of the domain when
`min <= max` and the argument is not NaN. -/
theorem SetValue_inDomain (q : LinearParameter) (v : Double) (h : q.dMin ≤ q.dMax)
    (hv : v ≠ Double.nan) : (q.SetValue v).InDomain := by
  obtain ⟨hmin, hmax⟩ := Double.ne_nan_of_le h
  unfold LinearParameter.InDomain LinearParameter.GetMin LinearParameter.GetMax
    LinearParameter.GetValue Parameter.GetValue LinearParameter.SetValue
  by_cases h1 : q.dMax < v
  · simp only [h1, if_true]
    exact ⟨h, Double.le_refl_of_ne_nan hmax⟩
  · by_cases h2 : v < q.dMin
    · simp only [h1, h2, if_true, if_false]
      exact ⟨Double.le_refl_of_ne_nan hmin, h⟩
    · simp only [h1, h2, if_false]
      exact ⟨Double.le_of_not_lt hv hmin h2, Double.le_of_not_lt hmax hv h1⟩

/-- With the modelled `SetValue`, from a state with `min <= max` and a value
that is not NaN, the value is in the domain after `SetMin(x)` and `SetMax(x)`
for `x` not NaN, and after `SetStep(y)` for every `y`. -/
theorem bound_setters_inDomain (p : LinearParameter) (x y : Double)
    (hmm : p.dMin ≤ p.dMax) (hv : p.dValue ≠ Double.nan) (hx : x ≠ Double.nan) :
    (p.SetMin LinearParameter.SetValue x).InDomain ∧
    (p.SetMax LinearParameter.SetValue x).InDomain ∧
    (p.SetStep LinearParameter.SetValue y).InDomain := by
  obtain ⟨hmin, hmax⟩ := Double.ne_nan_of_le hmm
  refine ⟨?_, ?_, ?_⟩
  · unfold LinearParameter.SetMin
    apply SetValue_inDomain
    · by_cases h : p.dMax < x
      · simp only [h, if_true]; exact Double.le_refl_of_ne_nan hx
      · simp only [h, if_false]; exact Double.le_of_not_lt hmax hx h
    · by_cases h : p.dMax < x <;> simp only [h, if_true, if_false] <;> exact hv
  · unfold LinearParameter.SetMax
    apply SetValue_inDomain
    · by_cases h : x < p.dMin
      · simp only [h, if_true]; exact Double.le_refl_of_ne_nan hmin
      · simp only [h, if_false]; exact Double.le_of_not_lt hx hmin h
    · by_cases h : x < p.dMin <;> simp only [h, if_true, if_false] <;> exact hv
  · unfold LinearParameter.SetStep
    apply SetValue_inDomain
    · by_cases h : y < Double.fin 0
      · simp only [h, if_true]; exact hmm
      · simp only [h, if_false]; exact hmm
    · by_cases h : y < Double.fin 0 <;> simp only [h, if_true, if_false] <;> exact hv

/-! ## Bound setters of `LinearParameter` -/

/-- C1 (as stated, refuted): from a state with `min <= max` and `step >= 0`,
`SetMin(NaN)` stores the NaN (the guard `dMax<dMin` is false) and `min <= max`
no longer holds. -/
theorem SetMin_nan_breaks_bounds :
    sampleLinear.BoundsOk ∧
    (sampleLinear.SetMin LinearParameter.SetValue Double.nan).dMin = Double.nan ∧
    ¬ (sampleLinear.SetMin LinearParameter.SetValue Double.nan).BoundsOk := by
  decide

/-- C1 (amended): starting from a state with `min <= max` and `step >= 0`,
every state reached after a call of any finite sequence of `SetMin`, `SetMax`
and `SetStep` calls whose arguments are not NaN satisfies `min <= max` and
`step >= 0`, for every `SetValue` body that writes none of `dMin`, `dMax`,
`dStep`. -/
theorem setters_keep_min_le_max_and_step_nonneg
    (setValue : LinearParameter → Double → LinearParameter) (hsv : KeepsBounds setValue)
    (p : LinearParameter) (hp : p.BoundsOk) (calls : List SetterCall)
    (hargs : ∀ c ∈ calls, c.arg ≠ Double.nan) :
    ∀ q ∈ SetterCall.trace setValue p calls, q.BoundsOk := by
  induction calls generalizing p with
  | nil => intro q hq; simp [SetterCall.trace] at hq
  | cons c cs ih =>
    intro q hq
    have hstep := run_boundsOk setValue hsv p hp c (hargs c (List.mem_cons_self _ _))
    simp only [SetterCall.trace, List.mem_cons] at hq
    rcases hq with rfl | hq
    · exact hstep
    · exact ih _ hstep (fun c hc => hargs c (List.mem_cons_of_mem _ hc)) q hq

/-- Instance of C1 (amended): `SetMin(20)`, `SetStep(-1)`, `SetMax(3)` on the
sample parameter, with the modelled `SetValue`. -/
theorem setters_keep_min_le_max_and_step_nonneg_witness :
    KeepsBounds LinearParameter.SetValue ∧ sampleLinear.BoundsOk ∧
    (∀ c ∈ [SetterCall.SetMin (Double.fin 20), SetterCall.SetStep (Double.fin (-1)),
        SetterCall.SetMax (Double.fin 3)], c.arg ≠ Double.nan) ∧
    ∀ q ∈ SetterCall.trace LinearParameter.SetValue sampleLinear
        [SetterCall.SetMin (Double.fin 20), SetterCall.SetStep (Double.fin (-1)),
          SetterCall.SetMax (Double.fin 3)],
      q.BoundsOk :=
  ⟨keepsBounds_SetValue, by decide, by simp [SetterCall.arg],
   setters_keep_min_le_max_and_step_nonneg LinearParameter.SetValue keepsBounds_SetValue
     sampleLinear (by decide) _ (by simp [SetterCall.arg])⟩

/-- C7 (as stated, refuted): for the argument NaN, `m >= min` is false, yet
`SetMax(NaN)` stores `max = NaN` and not `max = min`. -/
theorem SetMax_nan_stores_nan :
    ¬ (Double.nan ≥ sampleLinear.dMin) ∧
    (sampleLinear.SetMax LinearParameter.SetValue Double.nan).dMax = Double.nan ∧
    (sampleLinear.SetMax LinearParameter.SetValue Double.nan).dMax ≠ sampleLinear.dMin := by
  decide

/-- C7 (amended): for every prior state, every argument `x` and every
`SetValue` body that writes none of `dMin`, `dMax`, `dStep`: `SetMin(x)` stores
`min = x` and `max = x` when `x` exceeds the stored max (max unchanged
otherwise); `SetMax(x)` stores `max = min` when `x < min` and `max = x`
otherwise, which is `max = x` when `x >= min` and `max = min` otherwise
provided neither `x` nor the stored min is NaN, and keeps min; `SetStep(x)`
stores `step = x` when `x >= 0` and `step = 0` when `x < 0`, and keeps min and
max. -/
theorem setters_exact_clamping
    (setValue : LinearParameter → Double → LinearParameter) (hsv : KeepsBounds setValue)
    (p : LinearParameter) (x : Double) :
    ((p.SetMin setValue x).dMin = x ∧
     (p.SetMin setValue x).dMax = (if p.dMax < x then x else p.dMax)) ∧
    ((p.SetMax setValue x).dMax = (if x < p.dMin then p.dMin else x) ∧
     (x ≠ Double.nan → p.dMin ≠ Double.nan →
       (p.SetMax setValue x).dMax = (if p.dMin ≤ x then x else p.dMin)) ∧
     (p.SetMax setValue x).dMin = p.dMin) ∧
    ((Double.fin 0 ≤ x → (p.SetStep setValue x).dStep = x) ∧
     (x < Double.fin 0 → (p.SetStep setValue x).dStep = Double.fin 0) ∧
     (p.SetStep setValue x).dMin = p.dMin ∧
     (p.SetStep setValue x).dMax = p.dMax) := by
  obtain ⟨a1, a2, _⟩ := SetMin_bounds setValue hsv p x
  obtain ⟨b1, b2, _⟩ := SetMax_bounds setValue hsv p x
  obtain ⟨c1, c2, c3⟩ := SetStep_bounds setValue hsv p x
  refine ⟨⟨a1, a2⟩, ⟨b2, ?_, b1⟩, ⟨?_, ?_, c1, c2⟩⟩
  · intro hx hmin
    rw [b2]
    by_cases h : x < p.dMin
    · rw [if_pos h, if_neg (Double.not_le_of_lt h)]
    · rw [if_neg h, if_pos (Double.le_of_not_lt hx hmin h)]
  · intro h
    rw [c3, if_neg (Double.not_lt_of_le h)]
  · intro h
    rw [c3, if_pos h]

/-- Instance of C7 (amended) on the sample parameter with argument `12` and the
modelled `SetValue`. -/
theorem setters_exact_clamping_witness :
    KeepsBounds LinearParameter.SetValue ∧
    (sampleLinear.SetMax LinearParameter.SetValue (Double.fin 12)).dMax = Double.fin 12 ∧
    (sampleLinear.SetStep LinearParameter.SetValue (Double.fin 12)).dStep = Double.fin 12 :=
  ⟨keepsBounds_SetValue,
   by
    have h := setters_exact_clamping LinearParameter.SetValue keepsBounds_SetValue
      sampleLinear (Double.fin 12)
    have h1 := h.2.1.2.1 (by decide) (by decide)
    rw [if_pos (by decide)] at h1
    exact h1,
   (setters_exact_clamping LinearParameter.SetValue keepsBounds_SetValue sampleLinear
      (Double.fin 12)).2.2.1 (by decide)⟩

/-- C8 (as stated, refuted): after `SetMin(NaN)` the stored minimum is NaN, so
`GetMin() <= GetValue()` is false. -/
theorem SetMin_nan_value_outside_domain :
    (sampleLinear.SetMin LinearParameter.SetValue Double.nan).GetMin = Double.nan ∧
    ¬ (sampleLinear.SetMin LinearParameter.SetValue Double.nan).InDomain := by
  decide

/-- C8 (amended): with the modelled clamping `SetValue`, from every state with
`min <= max` and a current value that is not NaN, the current value lies in
`[GetMin(), GetMax()]` after `SetMin(x)` and after `SetMax(x)` for every
argument `x` that is not NaN, and after `SetStep(y)` for every argument `y`. -/
theorem setters_value_in_domain (p : LinearParameter) (x y : Double)
    (hmm : p.dMin ≤ p.dMax) (hv : p.dValue ≠ Double.nan) (hx : x ≠ Double.nan) :
    (p.SetMin LinearParameter.SetValue x).InDomain ∧
    (p.SetMax LinearParameter.SetValue x).InDomain ∧
    (p.SetStep LinearParameter.SetValue y).InDomain :=
  bound_setters_inDomain p x y hmm hv hx

/-- Instance of C8 (amended): `SetMin(6)`, `SetMax(6)` and `SetStep(NaN)` on the
sample parameter. -/
theorem setters_value_in_domain_witness :
    sampleLinear.dMin ≤ sampleLinear.dMax ∧ sampleLinear.dValue ≠ Double.nan ∧
    Double.fin 6 ≠ Double.nan ∧
    (sampleLinear.SetMin LinearParameter.SetValue (Double.fin 6)).InDomain ∧
    (sampleLinear.SetMax LinearParameter.SetValue (Double.fin 6)).InDomain ∧
    (sampleLinear.SetStep LinearParameter.SetValue Double.nan).InDomain :=
  ⟨by decide, by decide, by decide,
   setters_value_in_domain sampleLinear (Double.fin 6) Double.nan (by decide) (by decide)
     (by decide)⟩

/-! ## `CountSteps`, sweep flag, snapshot -/

theorem Double.sub_fin (a b y : ℚ) (h : Double.round (a - b) = Double.fin y) :
    Double.fin a - Double.fin b = Double.fin y := h

theorem Double.div_fin (a b y : ℚ) (hb : b ≠ 0) (h : Double.round (a / b) = Double.fin y) :
    Double.fin a / Double.fin b = Double.fin y := by
  show Double.div (Double.fin a) (Double.fin b) = Double.fin y
  simp only [Double.div, if_neg hb]
  exact h

/-- The difference `b - a` of two `double`s with `a <= b` is NaN, the positive
infinity or a finite value that is not negative. -/
theorem Double.sub_of_le (a b : Double) (h : a ≤ b) :
    b - a = Double.nan ∨ b - a = Double.pinf ∨ ∃ d : ℚ, 0 ≤ d ∧ b - a = Double.fin d := by
  have h' : Double.le a b = true := h
  show Double.sub b a = Double.nan ∨ Double.sub b a = Double.pinf ∨
    ∃ d : ℚ, 0 ≤ d ∧ Double.sub b a = Double.fin d
  cases a <;> cases b <;> simp [Double.le, Double.sub] at h' ⊢
  rename_i x y
  rcases Double.round_nonneg (y - x) (sub_nonneg.mpr h') with hr | ⟨d, hd, hr⟩
  · right; left; exact hr
  · right; right; exact ⟨d, hd, hr⟩

/-- The quotient of NaN, the positive infinity or a non-negative finite value
by a `double` greater than 0 is again of that kind. -/
theorem Double.div_of_pos (x s : Double) (hs : Double.fin 0 < s)
    (hx : x = Double.nan ∨ x = Double.pinf ∨ ∃ d : ℚ, 0 ≤ d ∧ x = Double.fin d) :
    x / s = Double.nan ∨ x / s = Double.pinf ∨ ∃ q : ℚ, 0 ≤ q ∧ x / s = Double.fin q := by
  have hs' : Double.lt (Double.fin 0) s = true := hs
  show Double.div x s = Double.nan ∨ Double.div x s = Double.pinf ∨
    ∃ q : ℚ, 0 ≤ q ∧ Double.div x s = Double.fin q
  rcases hx with rfl | rfl | ⟨d, hd, rfl⟩
  · left; cases s <;> rfl
  · cases s with
    | nan => simp [Double.lt] at hs'
    | ninf => simp [Double.lt] at hs'
    | pinf => left; rfl
    | fin b =>
      simp only [Double.lt, decide_eq_true_eq] at hs'
      right; left
      simp [Double.div, le_of_lt hs']
  · cases s with
    | nan => simp [Double.lt] at hs'
    | ninf => simp [Double.lt] at hs'
    | pinf => right; right; exact ⟨0, le_refl _, rfl⟩
    | fin b =>
      simp only [Double.lt, decide_eq_true_eq] at hs'
      simp only [Double.div, if_neg (ne_of_gt hs')]
      rcases Double.round_nonneg (d / b) (div_nonneg hd (le_of_lt hs')) with hr | ⟨q, hq, hr⟩
      · right; left; exact hr
      · right; right; exact ⟨q, hq, hr⟩

theorem castInt_of_nonneg (x : ℚ) (hx : 0 ≤ x) (hb : ⌊x⌋ ≤ INT_MAX) :
    castInt (Double.fin x) = some ⌊x⌋ := by
  have hnum : 0 ≤ x.num := Rat.num_nonneg.mpr hx
  have hden : (0 : ℤ) ≤ (x.den : ℤ) := Int.ofNat_nonneg _
  have ht : Int.tdiv x.num (x.den : ℤ) = ⌊x⌋ := by
    rw [Int.tdiv_eq_ediv hnum hden, Rat.floor_def]
  have h0 : 0 ≤ ⌊x⌋ := Int.floor_nonneg.mpr hx
  have hlo : INT_MIN ≤ ⌊x⌋ := le_trans (by decide) h0
  simp only [castInt, ht]
  rw [if_pos ⟨hlo, hb⟩]

/-- The result of `CountSteps()` from the `double` quotient: when `(max-min)/step` is the
finite value `q >= 0` with `floor(q) = n` and `n + 1` fits in `int`, the result
is `n + 1`. -/
theorem CountSteps_of_quotient (p : LinearParameter) (q : ℚ) (n : ℤ)
    (hq : (p.dMax - p.dMin) / p.dStep = Double.fin q) (h0 : 0 ≤ q) (hn : ⌊q⌋ = n)
    (hfit : n + 1 ≤ INT_MAX) : p.CountSteps = some (n + 1) := by
  have hn0 : 0 ≤ n := by rw [← hn]; exact Int.floor_nonneg.mpr h0
  have hb : ⌊q⌋ ≤ INT_MAX := by omega
  have hlo : INT_MIN ≤ n + 1 := le_trans (by decide) (add_nonneg hn0 (by decide))
  unfold LinearParameter.CountSteps
  rw [hq, castInt_of_nonneg q h0 hb, hn]
  simp only [Option.some_bind, intAdd]
  rw [if_pos ⟨hlo, hfit⟩]

theorem round_one_div_tenth :
    Double.round (1 / (3602879701896397 / 36028797018963968)) = Double.fin 10 := by
  apply Double.round_eq_fin _ _ 3 5629499534213120 <;> norm_num [abs_lt, le_abs]

theorem sampleTenth_quotient :
    (sampleTenth.dMax - sampleTenth.dMin) / sampleTenth.dStep = Double.fin 10 := by
  have h1 : Double.fin 1 - Double.fin 0 = Double.fin 1 := by
    apply Double.sub_fin
    apply Double.round_eq_fin _ _ 0 4503599627370496 <;> norm_num [abs_lt, le_abs]
  show (Double.fin 1 - Double.fin 0) / d0_1 = Double.fin 10
  rw [h1]
  exact Double.div_fin _ _ _ (by norm_num) round_one_div_tenth

/-- C2 (as stated, refuted): for the `double`s min = 0, max = 1, step = 0.1 the
code returns 11 (the `double` quotient is rounded to 10), while
`floor((max-min)/step) + 1` over the exact rationals is 10. -/
theorem CountSteps_tenth_differs_from_exact_floor :
    sampleTenth.dMin ≤ sampleTenth.dMax ∧ Double.fin 0 < sampleTenth.dStep ∧
    sampleTenth.CountSteps = some 11 ∧
    ⌊(sampleTenth.dMax.toRat - sampleTenth.dMin.toRat) / sampleTenth.dStep.toRat⌋ + 1 = 10 := by
  refine ⟨by decide, ?_, ?_, ?_⟩
  · show Double.fin 0 < d0_1
    rw [d0_1, Double.fin_lt_fin]; norm_num
  · exact CountSteps_of_quotient sampleTenth 10 10 sampleTenth_quotient (by norm_num)
      (by norm_num) (by decide)
  · have h : (sampleTenth.dMax.toRat - sampleTenth.dMin.toRat) / sampleTenth.dStep.toRat
        = 36028797018963968 / 3602879701896397 := by
      norm_num [sampleTenth, d0_1, Double.toRat]
    rw [h]
    have : ⌊(36028797018963968 / 3602879701896397 : ℚ)⌋ = 9 := by
      rw [Int.floor_eq_iff]; norm_num
    rw [this]; rfl

/-- C2 (amended): with `min <= max`, `step > 0`, a finite `double` quotient
`q = (max-min)/step` and a result that fits in `int`, `CountSteps()` returns
exactly `floor(q) + 1`; `q` is the exact rational `(max-min)/step`, whether or
not `step` divides `max-min` evenly, whenever the `double` subtraction and
division are exact. -/
theorem CountSteps_eq_floor_add_one (p : LinearParameter)
    (hmm : p.dMin ≤ p.dMax) (hst : Double.fin 0 < p.dStep) (q : ℚ)
    (hq : (p.dMax - p.dMin) / p.dStep = Double.fin q)
    (hfit : ⌊q⌋ + 1 ≤ INT_MAX) :
    p.CountSteps = some (⌊q⌋ + 1) ∧
    ∀ a b s : ℚ, p.dMin = Double.fin a → p.dMax = Double.fin b → p.dStep = Double.fin s →
      Double.round (b - a) = Double.fin (b - a) →
      Double.round ((b - a) / s) = Double.fin ((b - a) / s) →
      q = (b - a) / s := by
  constructor
  · have h0 : 0 ≤ q := by
      rcases Double.div_of_pos _ _ hst (Double.sub_of_le _ _ hmm) with h | h | ⟨q2, hq2, h⟩
      · rw [hq] at h; cases h
      · rw [hq] at h; cases h
      · rw [hq] at h; cases h; exact hq2
    exact CountSteps_of_quotient p q ⌊q⌋ hq h0 rfl hfit
  · intro a b s ha hb hs e1 e2
    rw [ha, hb, hs] at hq
    have hs0 : s ≠ 0 := by
      rw [hs, Double.fin_lt_fin] at hst
      exact ne_of_gt hst
    rw [Double.sub_fin b a _ e1, Double.div_fin _ s _ hs0 e2] at hq
    cases hq
    rfl

theorem sampleLinear_quotient :
    (sampleLinear.dMax - sampleLinear.dMin) / sampleLinear.dStep
      = Double.fin (7505999378950827 / 2251799813685248) := by
  have h1 : Double.fin 10 - Double.fin 0 = Double.fin 10 := by
    apply Double.sub_fin
    apply Double.round_eq_fin _ _ 3 5629499534213120 <;> norm_num [abs_lt, le_abs]
  show (Double.fin 10 - Double.fin 0) / Double.fin 3 = _
  rw [h1]
  apply Double.div_fin _ _ _ (by norm_num)
  apply Double.round_eq_fin _ _ 1 7505999378950827 <;> norm_num [abs_lt, le_abs]

/-- Instance of C2 (amended): the domain `[0, 10]` with step `3`, where the
`double` quotient is 3.3333333333333335 and `CountSteps()` is 4. -/
theorem CountSteps_eq_floor_add_one_witness :
    sampleLinear.dMin ≤ sampleLinear.dMax ∧ Double.fin 0 < sampleLinear.dStep ∧
    (sampleLinear.dMax - sampleLinear.dMin) / sampleLinear.dStep
      = Double.fin (7505999378950827 / 2251799813685248) ∧
    ⌊(7505999378950827 / 2251799813685248 : ℚ)⌋ + 1 = 4 ∧
    sampleLinear.CountSteps = some (⌊(7505999378950827 / 2251799813685248 : ℚ)⌋ + 1) := by
  have hf : ⌊(7505999378950827 / 2251799813685248 : ℚ)⌋ = 3 := by
    rw [Int.floor_eq_iff]; norm_num
  exact ⟨by decide, by decide, sampleLinear_quotient, by rw [hf]; rfl,
    (CountSteps_eq_floor_add_one sampleLinear (by decide) (by decide) _ sampleLinear_quotient
      (by rw [hf]; decide)).1⟩

/-- C3 (as stated, refuted): after `SetSweep(false)` a `LinearParameter`
reports `GetSweep() == false`, not true. -/
theorem LinearParameter_GetSweep_not_always_true :
    ¬ ((sampleLinear.SetSweep false).GetSweep = true) := by decide

/-- C3 (amended): for every `LinearParameter`, `GetSweep()` returns the stored
sweep flag; after `SetSweep(b)` it returns `b`. -/
theorem LinearParameter_GetSweep_eq_flag (p : LinearParameter) :
    p.GetSweep = p.bSweep ∧ ∀ b : Bool, (p.SetSweep b).GetSweep = b :=
  ⟨rfl, fun _ => rfl⟩

/-- C4: for every base (Const) `Parameter` and every sequence of `SetSweep`
calls, `GetSweep()` returns false, although the last argument is stored in the
sweep flag. -/
theorem Parameter_GetSweep_false (p : Parameter) (mods : List Bool) :
    (mods.foldl Parameter.SetSweep p).GetSweep = false ∧
    ∀ b : Bool, ((mods.foldl Parameter.SetSweep p).SetSweep b).bSweep = b ∧
      ((mods.foldl Parameter.SetSweep p).SetSweep b).GetSweep = false :=
  ⟨rfl, fun _ => ⟨rfl, rfl⟩⟩

theorem Parameter_runValueCall_saved (p : Parameter) (c : ValueCall) :
    (p.runValueCall c).dValueSaved = p.dValueSaved := by
  cases c <;> rfl

theorem LinearParameter_runValueCall_saved (p : LinearParameter) (c : ValueCall) :
    (p.runValueCall c).dValueSaved = p.dValueSaved := by
  cases c with
  | SetValue val => rfl
  | InitSweep => rfl
  | IncreaseStep =>
    simp only [LinearParameter.runValueCall, LinearParameter.IncreaseStep]
    split_ifs <;> rfl

theorem Parameter_foldl_saved (calls : List ValueCall) (p : Parameter) :
    (calls.foldl Parameter.runValueCall p).dValueSaved = p.dValueSaved := by
  induction calls generalizing p with
  | nil => rfl
  | cons c cs ih => rw [List.foldl_cons, ih, Parameter_runValueCall_saved]

theorem LinearParameter_foldl_saved (calls : List ValueCall) (p : LinearParameter) :
    (calls.foldl LinearParameter.runValueCall p).dValueSaved = p.dValueSaved := by
  induction calls generalizing p with
  | nil => rfl
  | cons c cs ih => rw [List.foldl_cons, ih, LinearParameter_runValueCall_saved]

/-- C5: `Save()`, then any sequence of `SetValue`, `InitSweep` and
`IncreaseStep` calls, then `Restore()` leaves `GetValue()` equal to the value
before `Save()`, for a Const `Parameter` and for a `LinearParameter`. -/
theorem Save_Restore_round_trip (calls : List ValueCall) :
    (∀ p : Parameter,
      ((calls.foldl Parameter.runValueCall p.Save).Restore).GetValue = p.GetValue) ∧
    (∀ p : LinearParameter,
      ((calls.foldl LinearParameter.runValueCall p.Save).Restore).GetValue = p.GetValue) := by
  constructor
  · intro p
    show (calls.foldl Parameter.runValueCall p.Save).dValueSaved = p.dValue
    rw [Parameter_foldl_saved]; rfl
  · intro p
    show (calls.foldl LinearParameter.runValueCall p.Save).dValueSaved = p.dValue
    rw [LinearParameter_foldl_saved]; rfl

/-- C6: `Save()` writes only the saved-value snapshot and `Restore()` writes
only the current value: name, modified flag, sweep flag, discriminant and, for a
`LinearParameter`, min, max and step are unchanged; `Save()` also keeps the
current value and `Restore()` keeps the snapshot. -/
theorem Save_Restore_frame :
    (∀ p : Parameter,
      p.Save = { p with dValueSaved := p.dValue } ∧
      p.Save.sName = p.sName ∧ p.Save.dValue = p.dValue ∧
      p.Save.bModified = p.bModified ∧ p.Save.bSweep = p.bSweep ∧ p.Save.Type_ = p.Type_ ∧
      p.Restore = { p with dValue := p.dValueSaved } ∧
      p.Restore.sName = p.sName ∧ p.Restore.dValueSaved = p.dValueSaved ∧
      p.Restore.bModified = p.bModified ∧ p.Restore.bSweep = p.bSweep ∧
      p.Restore.Type_ = p.Type_) ∧
    (∀ p : LinearParameter,
      p.Save.sName = p.sName ∧ p.Save.dValue = p.dValue ∧ p.Save.dValueSaved = p.dValue ∧
      p.Save.bModified = p.bModified ∧ p.Save.bSweep = p.bSweep ∧ p.Save.Type_ = p.Type_ ∧
      p.Save.dMin = p.dMin ∧ p.Save.dMax = p.dMax ∧ p.Save.dStep = p.dStep ∧
      p.Restore.sName = p.sName ∧ p.Restore.dValue = p.dValueSaved ∧
      p.Restore.dValueSaved = p.dValueSaved ∧
      p.Restore.bModified = p.bModified ∧ p.Restore.bSweep = p.bSweep ∧
      p.Restore.Type_ = p.Type_ ∧
      p.Restore.dMin = p.dMin ∧ p.Restore.dMax = p.dMax ∧ p.Restore.dStep = p.dStep) :=
  ⟨fun _ => ⟨rfl, rfl, rfl, rfl, rfl, rfl, rfl, rfl, rfl, rfl, rfl, rfl⟩,
   fun _ => ⟨rfl, rfl, rfl, rfl, rfl, rfl, rfl, rfl, rfl, rfl, rfl, rfl, rfl, rfl, rfl, rfl, rfl, rfl⟩⟩

/-! ## Copy construction and the Const variant -/

/-- C9: the object built by `Parameter(const Parameter*)`, and so by the base
`Clone()`, has the name, value, discriminant and sweep flag of the original and
its modified flag is true, whatever the original flag; the original is
unchanged. -/
theorem copyCtor_duplicates (p : Parameter) (uninit : Double) :
    (Parameter.copyCtor p uninit).2.sName = p.sName ∧
    (Parameter.copyCtor p uninit).2.dValue = p.dValue ∧
    (Parameter.copyCtor p uninit).2.Type_ = p.Type_ ∧
    (Parameter.copyCtor p uninit).2.bSweep = p.bSweep ∧
    (Parameter.copyCtor p uninit).2.bModified = true ∧
    (Parameter.copyCtor p uninit).1 = p ∧
    Parameter.Clone p uninit = Parameter.copyCtor p uninit :=
  ⟨rfl, rfl, rfl, rfl, rfl, rfl, rfl⟩

/-- C10: for every base (Const) `Parameter`, `CountSteps()` returns 1,
`IncreaseStep()` returns false, and `InitSweep()` and `IncreaseStep()` leave the
whole object unchanged. -/
theorem Const_single_position (p : Parameter) :
    p.CountSteps = 1 ∧ p.IncreaseStep.1 = false ∧
    p.InitSweep = p ∧ p.IncreaseStep.2 = p :=
  ⟨rfl, rfl, rfl, rfl⟩

/-! ## Sweep counting -/

/-- C11: `LinearParameter::InitSweep()` sets the current value to the stored
minimum and leaves min, max, step, the saved snapshot, the modified flag, the
sweep flag, the name and the discriminant unchanged. -/
theorem LinearParameter_InitSweep_resets_to_min (p : LinearParameter) :
    p.InitSweep.GetValue = p.InitSweep.GetMin ∧
    p.InitSweep = { p with dValue := p.dMin } ∧
    p.InitSweep.dMin = p.dMin ∧ p.InitSweep.dMax = p.dMax ∧ p.InitSweep.dStep = p.dStep ∧
    p.InitSweep.dValueSaved = p.dValueSaved ∧ p.InitSweep.bModified = p.bModified ∧
    p.InitSweep.bSweep = p.bSweep ∧ p.InitSweep.sName = p.sName ∧
    p.InitSweep.Type_ = p.Type_ :=
  ⟨rfl, rfl, rfl, rfl, rfl, rfl, rfl, rfl, rfl, rfl⟩

/-- The recursion `sweepCounts` lists the `CountSteps()` results over the
sweep-enabled sublist. -/
theorem sweepCounts_eq_some_iff (l : List AnyParameter) (cs : List ℤ) :
    sweepCounts l = some cs ↔
      (l.filter AnyParameter.GetSweep).map AnyParameter.CountSteps = cs.map some := by
  induction l generalizing cs with
  | nil =>
    simp only [sweepCounts, List.filter_nil, List.map_nil, Option.some.injEq]
    constructor
    · rintro rfl; rfl
    · intro h
      cases cs with
      | nil => rfl
      | cons c cs => simp at h
  | cons p ps ih =>
    by_cases hp : p.GetSweep = true
    · simp only [sweepCounts, hp, if_true, List.filter_cons_of_pos, List.map_cons]
      cases hc : p.CountSteps with
      | none =>
        simp only
        constructor
        · intro h; cases h
        · intro h
          cases cs with
          | nil => simp at h
          | cons c cs => simp at h
      | some c =>
        cases hs : sweepCounts ps with
        | none =>
          simp only
          constructor
          · intro h; cases h
          · intro h
            cases cs with
            | nil => simp at h
            | cons c' cs' =>
              simp only [List.map_cons, List.cons.injEq] at h
              have := (ih cs').mpr h.2
              rw [hs] at this; cases this
        | some cs0 =>
          simp only [Option.some.injEq]
          constructor
          · rintro rfl
            simp only [List.map_cons, List.cons.injEq, true_and]
            exact (ih cs0).mp hs
          · intro h
            cases cs with
            | nil => simp at h
            | cons c' cs' =>
              simp only [List.map_cons, List.cons.injEq, Option.some.injEq] at h
              have := (ih cs').mpr h.2
              rw [hs] at this
              cases this
              rw [h.1]
    · have hp' : p.GetSweep = false := by simpa using hp
      simp only [sweepCounts, hp', Bool.false_eq_true, if_false]
      rw [List.filter_cons_of_neg (by simp [hp'])]
      exact ih cs


/-- C12: when the `CountSteps()` results over exactly the owned parameters with
`GetSweep() == true` are `cs`, `CountSweepSteps` in full mode (1) is the product
of `cs` (as an `int`) and in independent mode (2) is the maximum of `cs`; two
sets with the same sweep-enabled parameters have the same counts, so the
parameters with `GetSweep() == false` do not contribute. -/
theorem CountSweepSteps_product_and_max (s : ParameterSet) (cs : List ℤ)
    (hcs : (s.vParameter.filter AnyParameter.GetSweep).map AnyParameter.CountSteps
      = cs.map some) :
    s.CountSweepSteps 1 = intResult cs.prod ∧
    (INT_MIN ≤ cs.prod ∧ cs.prod ≤ INT_MAX → s.CountSweepSteps 1 = some cs.prod) ∧
    (cs ≠ [] → ∃ m, s.CountSweepSteps 2 = some m ∧ m ∈ cs ∧ ∀ c ∈ cs, c ≤ m) ∧
    (∀ t : ParameterSet,
      t.vParameter.filter AnyParameter.GetSweep = s.vParameter.filter AnyParameter.GetSweep →
      ∀ mode, t.CountSweepSteps mode = s.CountSweepSteps mode) := by
  have hs : sweepCounts s.vParameter = some cs := (sweepCounts_eq_some_iff _ _).mpr hcs
  have h1 : s.CountSweepSteps 1 = intResult cs.prod := by
    simp [ParameterSet.CountSweepSteps, hs]
  refine ⟨h1, ?_, ?_, ?_⟩
  · intro hfit
    rw [h1, intResult, if_pos hfit]
  · intro hne
    have h2 : s.CountSweepSteps 2 = cs.max? := by
      simp [ParameterSet.CountSweepSteps, hs]
    cases hm : cs.max? with
    | none =>
      rw [List.max?_eq_none_iff] at hm
      exact absurd hm hne
    | some m =>
      refine ⟨m, by rw [h2, hm], ?_, ?_⟩
      · exact List.max?_mem (fun a b => max_choice a b) hm
      · intro c hc
        exact (List.max?_le_iff (fun a b c => max_le_iff) hm).mp (le_refl m) c hc
  · intro t ht mode
    have hts : sweepCounts t.vParameter = some cs := by
      rw [sweepCounts_eq_some_iff, ht]; exact hcs
    simp [ParameterSet.CountSweepSteps, hs, hts]

theorem sampleLinear3_quotient :
    (sampleLinear3.dMax - sampleLinear3.dMin) / sampleLinear3.dStep = Double.fin 2 := by
  have h1 : Double.fin 2 - Double.fin 0 = Double.fin 2 := by
    apply Double.sub_fin
    apply Double.round_eq_fin _ _ 1 4503599627370496 <;> norm_num [abs_lt, le_abs]
  have h2 : Double.fin 2 / Double.fin 1 = Double.fin 2 := by
    apply Double.div_fin _ _ _ (by norm_num)
    apply Double.round_eq_fin _ _ 1 4503599627370496 <;> norm_num [abs_lt, le_abs]
  show (Double.fin 2 - Double.fin 0) / Double.fin 1 = Double.fin 2
  rw [h1, h2]

theorem sampleLinear3_CountSteps : sampleLinear3.CountSteps = some 3 :=
  CountSteps_of_quotient sampleLinear3 2 2 sampleLinear3_quotient (by norm_num) (by norm_num)
    (by decide)

theorem sampleLinear4_quotient :
    (sampleLinear4.dMax - sampleLinear4.dMin) / sampleLinear4.dStep = Double.fin 3 := by
  have h1 : Double.fin 3 - Double.fin 0 = Double.fin 3 := by
    apply Double.sub_fin
    apply Double.round_eq_fin _ _ 1 6755399441055744 <;> norm_num [abs_lt, le_abs]
  have h2 : Double.fin 3 / Double.fin 1 = Double.fin 3 := by
    apply Double.div_fin _ _ _ (by norm_num)
    apply Double.round_eq_fin _ _ 1 6755399441055744 <;> norm_num [abs_lt, le_abs]
  show (Double.fin 3 - Double.fin 0) / Double.fin 1 = Double.fin 3
  rw [h1, h2]

theorem sampleLinear4_CountSteps : sampleLinear4.CountSteps = some 4 :=
  CountSteps_of_quotient sampleLinear4 3 3 sampleLinear4_quotient (by norm_num) (by norm_num)
    (by decide)

theorem sampleSet_counts :
    (sampleSet.vParameter.filter AnyParameter.GetSweep).map AnyParameter.CountSteps
      = [3, 4].map some := by
  have g3 : sampleLinear3.GetSweep = true := rfl
  have g4 : sampleLinear4.GetSweep = true := rfl
  simp [sampleSet, AnyParameter.GetSweep, Parameter.GetSweep, g3, g4,
    AnyParameter.CountSteps, sampleLinear3_CountSteps, sampleLinear4_CountSteps]

/-- Instance of C12: a set owning sweep-enabled Linear parameters with 3 and 4
positions (and a Const parameter) has 12 full-mode and 4 independent-mode sweep
steps. -/
theorem CountSweepSteps_product_and_max_witness :
    (sampleSet.vParameter.filter AnyParameter.GetSweep).map AnyParameter.CountSteps
      = [3, 4].map some ∧
    sampleSet.CountSweepSteps 1 = some 12 ∧ sampleSet.CountSweepSteps 2 = some 4 := by
  have h := sampleSet_counts
  have t := CountSweepSteps_product_and_max sampleSet [3, 4] h
  refine ⟨h, ?_, ?_⟩
  · rw [t.2.1 (by decide)]; rfl
  · obtain ⟨m, hm, hmem, hle⟩ := t.2.2.1 (by simp)
    have h4 : (4 : ℤ) ≤ m := hle 4 (by simp)
    have hm4 : m = 4 := by
      simp only [List.mem_cons, List.mem_singleton, List.not_mem_nil, or_false] at hmem
      omega
    rw [hm, hm4]

/-! ## `GetParameter` -/

/-- C16: `GetParameter(i)` never throws and never changes the set; it returns
the `i`-th owned parameter, in vector order, when `i < GetQtyParameter()` and
`NULL` when `i >= GetQtyParameter()`. -/
theorem GetParameter_total (s : ParameterSet) (i : ℕ) :
    s.GetParameter i =
      .ok (if h : i < s.GetQtyParameter then some (s.vParameter.get ⟨i, h⟩) else none, s) := by
  unfold ParameterSet.GetParameter ParameterSet.GetQtyParameter
  by_cases h : i < s.vParameter.length
  · simp only [h, if_true, dif_pos, vectorAt]
    rw [List.get?_eq_get h]
  · simp only [h, if_false, dif_neg, not_false_eq_true]

/-! ## Grid positions of one parameter -/

theorem AnyParameter_Clone_receiver (o : AnyParameter) (uninit : Double) :
    (o.Clone uninit).1 = o := by
  cases o <;> rfl

theorem linkWritesOnlyArgument_LinkParameter :
    LinkWritesOnlyArgument PointerSet.LinkParameter := by
  intro s a b _
  rfl

theorem list_set_same {α : Type} (l : List α) (i : ℕ) (x : α) (h : l[i]? = some x) :
    l.set i x = l := by
  apply List.ext_getElem?
  intro j
  by_cases hij : i = j
  · subst hij
    have hlt : i < l.length := (List.getElem?_eq_some.mp h).1
    rw [List.getElem?_set_self hlt, h]
  · rw [List.getElem?_set_ne hij]

theorem Store_read_write_ne (h : Store) (a b : ℕ) (x : AnyParameter) (hab : a ≠ b) :
    (h.write a x).read b = h.read b := by
  simp only [Store.read, Store.write]
  rw [List.get?_eq_getElem?, List.get?_eq_getElem?, List.getElem?_set_ne hab]

/-- C15: `InsertParameter(p)` has the effect and the return value of
`LinkParameter` applied to the pointer `p->Clone()` returns; that pointer
differs from `p`; the object at `p` is unchanged by the call; afterwards
assigning to the inserted object leaves the object at `p` as it was, and
assigning to the object at `p` leaves the inserted object as it was.  This holds
for every `LinkParameter` body that writes no stored object other than the one
it is given. -/
theorem InsertParameter_clone_independent
    (LinkParameter : PointerSet → ℕ → PointerSet × ℕ)
    (hL : LinkWritesOnlyArgument LinkParameter)
    (s : PointerSet) (p : ℕ) (o : AnyParameter) (hp : s.store.read p = some o) (uninit : Double) :
    ∃ c h,
      s.store.Clone p uninit = some (c, h) ∧
      s.InsertParameter LinkParameter p uninit = some (LinkParameter { s with store := h } c) ∧
      c ≠ p ∧
      (LinkParameter { s with store := h } c).1.store.read p = some o ∧
      (∀ x, ((LinkParameter { s with store := h } c).1.store.write c x).read p = some o) ∧
      (∀ x, ((LinkParameter { s with store := h } c).1.store.write p x).read c
        = (LinkParameter { s with store := h } c).1.store.read c) := by
  have hlt : p < s.store.cells.length := by
    simp only [Store.read] at hp
    exact (List.get?_eq_some.mp hp).1
  have hw : s.store.write p (o.Clone uninit).1 = s.store := by
    rw [AnyParameter_Clone_receiver]
    simp only [Store.write, Store.read] at hp ⊢
    rw [List.get?_eq_getElem?] at hp
    rw [list_set_same _ _ _ hp]
  have hc : s.store.Clone p uninit
      = some (s.store.cells.length, { cells := s.store.cells ++ [(o.Clone uninit).2] }) := by
    simp only [Store.Clone, hp, hw, Store.alloc]
  have hne : s.store.cells.length ≠ p := by omega
  have hread : ({ cells := s.store.cells ++ [(o.Clone uninit).2] } : Store).read p = some o := by
    simp only [Store.read] at hp ⊢
    rw [List.get?_eq_getElem?] at hp ⊢
    rw [List.getElem?_append_left hlt]
    exact hp
  have hafter : (LinkParameter { s with store := { cells := s.store.cells ++ [(o.Clone uninit).2] } }
      s.store.cells.length).1.store.read p = some o := by
    rw [hL _ _ _ (Ne.symm hne)]
    exact hread
  refine ⟨s.store.cells.length, { cells := s.store.cells ++ [(o.Clone uninit).2] }, hc, ?_,
    hne, hafter, ?_, ?_⟩
  · simp only [PointerSet.InsertParameter, hc]
  · intro x
    rw [Store_read_write_ne _ _ _ _ hne]
    exact hafter
  · intro x
    exact Store_read_write_ne _ _ _ _ (Ne.symm hne)

/-- Instance of C15: inserting the Linear object at address 0 of the sample
store, with the modelled `LinkParameter`. -/
theorem InsertParameter_clone_independent_witness :
    LinkWritesOnlyArgument PointerSet.LinkParameter ∧
    samplePointerSet.store.read 0 = some (AnyParameter.linear sampleLinear) ∧
    ∃ c h,
      samplePointerSet.store.Clone 0 (Double.fin 0) = some (c, h) ∧
      samplePointerSet.InsertParameter PointerSet.LinkParameter 0 (Double.fin 0)
        = some (PointerSet.LinkParameter { samplePointerSet with store := h } c) ∧
      c ≠ 0 ∧
      (PointerSet.LinkParameter { samplePointerSet with store := h } c).1.store.read 0
        = some (AnyParameter.linear sampleLinear) ∧
      (∀ x, ((PointerSet.LinkParameter { samplePointerSet with store := h } c).1.store.write
          c x).read 0 = some (AnyParameter.linear sampleLinear)) ∧
      (∀ x, ((PointerSet.LinkParameter { samplePointerSet with store := h } c).1.store.write
          0 x).read c
        = (PointerSet.LinkParameter { samplePointerSet with store := h } c).1.store.read c) :=
  ⟨linkWritesOnlyArgument_LinkParameter, rfl,
   InsertParameter_clone_independent PointerSet.LinkParameter
     linkWritesOnlyArgument_LinkParameter samplePointerSet 0
     (AnyParameter.linear sampleLinear) rfl (Double.fin 0)⟩

/-! ## `ParameterVector::Evaluate` -/

/-- C17: `ParameterVector::Evaluate()` evaluates the X, the Y and the Z
coordinate, whatever codes the others report, and, the sum being representable
as an `int`, returns the sum of the three `ParameterScalar::Evaluate()` codes. -/
theorem ParameterVector_Evaluate_sum (Evaluate : ParameterScalar → ℤ × ParameterScalar)
    (v : ParameterVector)
    (hxy : INT_MIN ≤ (Evaluate v.XCoord).1 + (Evaluate v.YCoord).1 ∧
      (Evaluate v.XCoord).1 + (Evaluate v.YCoord).1 ≤ INT_MAX)
    (hxyz : INT_MIN ≤ (Evaluate v.XCoord).1 + (Evaluate v.YCoord).1 + (Evaluate v.ZCoord).1 ∧
      (Evaluate v.XCoord).1 + (Evaluate v.YCoord).1 + (Evaluate v.ZCoord).1 ≤ INT_MAX) :
    (v.Evaluate Evaluate).1
      = some ((Evaluate v.XCoord).1 + (Evaluate v.YCoord).1 + (Evaluate v.ZCoord).1) ∧
    (v.Evaluate Evaluate).2.XCoord = (Evaluate v.XCoord).2 ∧
    (v.Evaluate Evaluate).2.YCoord = (Evaluate v.YCoord).2 ∧
    (v.Evaluate Evaluate).2.ZCoord = (Evaluate v.ZCoord).2 := by
  refine ⟨?_, rfl, rfl, rfl⟩
  simp only [ParameterVector.Evaluate, intAdd]
  rw [if_pos hxy, Option.some_bind, if_pos hxyz]

/-- Instance of C17: the Y coordinate reports code 3, X and Z report 0. -/
theorem ParameterVector_Evaluate_sum_witness :
    (INT_MIN ≤ (sampleEvaluate sampleVector.XCoord).1 + (sampleEvaluate sampleVector.YCoord).1 ∧
      (sampleEvaluate sampleVector.XCoord).1 + (sampleEvaluate sampleVector.YCoord).1
        ≤ INT_MAX) ∧
    (sampleVector.Evaluate sampleEvaluate).1
      = some ((sampleEvaluate sampleVector.XCoord).1 + (sampleEvaluate sampleVector.YCoord).1
          + (sampleEvaluate sampleVector.ZCoord).1) ∧
    (sampleVector.Evaluate sampleEvaluate).2.XCoord = (sampleEvaluate sampleVector.XCoord).2 ∧
    (sampleVector.Evaluate sampleEvaluate).2.YCoord = (sampleEvaluate sampleVector.YCoord).2 ∧
    (sampleVector.Evaluate sampleEvaluate).2.ZCoord = (sampleEvaluate sampleVector.ZCoord).2 :=
  ⟨by decide, ParameterVector_Evaluate_sum sampleEvaluate sampleVector (by decide) (by decide)⟩

/-! ## `CountSteps` with a zero step; the value domain under `Restore` -/

/-- No quotient by the `double` zero converts to an `int`: it is NaN or an
infinity. -/
theorem castInt_div_zero (x : Double) : castInt (x / Double.fin 0) = none := by
  show castInt (Double.div x (Double.fin 0)) = none
  cases x with
  | nan => rfl
  | ninf => simp [Double.div, castInt]
  | pinf => simp [Double.div, castInt]
  | fin a =>
    simp only [Double.div, if_true]
    split_ifs <;> rfl

/-- C18 (the code at the failing input): after `SetStep(-1)` the state satisfies
`min <= max` and `step >= 0`, the stored step is 0, and `CountSteps()`, which
divides by it, has no defined result. -/
theorem CountSteps_undefined_after_SetStep_negative :
    (sampleLinear.SetStep LinearParameter.SetValue (Double.fin (-1))).BoundsOk ∧
    (sampleLinear.SetStep LinearParameter.SetValue (Double.fin (-1))).GetStep = Double.fin 0 ∧
    (sampleLinear.SetStep LinearParameter.SetValue (Double.fin (-1))).CountSteps = none := by
  refine ⟨by decide, by decide, ?_⟩
  have hs : (sampleLinear.SetStep LinearParameter.SetValue (Double.fin (-1))).dStep
      = Double.fin 0 := by decide
  unfold LinearParameter.CountSteps
  rw [hs, castInt_div_zero]
  rfl

/-- C19 (as stated, refuted): from a state with `min <= value <= max`, the calls
`Save(); SetMin(6); Restore()` end in a state whose value 4 is below the
minimum 6. -/
theorem Restore_leaves_value_outside_domain :
    sampleLinear.InDomain ∧ sampleLinear.dMin ≤ sampleLinear.dMax ∧
    ¬ ((sampleLinear.Save.SetMin LinearParameter.SetValue (Double.fin 6)).Restore).InDomain := by
  decide

theorem SetValue_saved (q : LinearParameter) (v : Double) :
    (q.SetValue v).dValueSaved = q.dValueSaved := rfl

/-- The saved snapshot lies in the stored domain. -/
theorem run_disciplined (p : LinearParameter) (hp : p.InDomain) (saved : Bool)
    (hs : saved = true → p.dMin ≤ p.dValueSaved ∧ p.dValueSaved ≤ p.dMax) (c : DomainCall)
    (cs : List DomainCall) (hd : DomainCall.Disciplined saved (c :: cs)) :
    (DomainCall.run p c).InDomain ∧
    ∃ saved2 : Bool, DomainCall.Disciplined saved2 cs ∧
      (saved2 = true → (DomainCall.run p c).dMin ≤ (DomainCall.run p c).dValueSaved ∧
        (DomainCall.run p c).dValueSaved ≤ (DomainCall.run p c).dMax) := by
  have hmm : p.dMin ≤ p.dMax := Double.le_of_le_of_le hp.1 hp.2
  have hv : p.dValue ≠ Double.nan := (Double.ne_nan_of_le hp.1).2
  cases c with
  | Save =>
    exact ⟨hp, true, hd, fun _ => hp⟩
  | Restore =>
    obtain ⟨h1, h2⟩ := hd
    exact ⟨hs h1, saved, h2, hs⟩
  | InitSweep =>
    exact ⟨⟨Double.le_refl_of_ne_nan (Double.ne_nan_of_le hmm).1, hmm⟩, saved, hd, hs⟩
  | SetMin min =>
    obtain ⟨h1, h2⟩ := hd
    exact ⟨(bound_setters_inDomain p min min hmm hv h1).1, false, h2,
      fun h => absurd h (by decide)⟩
  | SetMax max =>
    obtain ⟨h1, h2⟩ := hd
    exact ⟨(bound_setters_inDomain p max max hmm hv h1).2.1, false, h2,
      fun h => absurd h (by decide)⟩
  | SetStep step =>
    refine ⟨(bound_setters_inDomain p (Double.fin 0) step hmm hv (by simp)).2.2, saved, hd, ?_⟩
    intro h
    have hk := keepsBounds_SetValue
    have e1 : (p.SetStep LinearParameter.SetValue step).dMin = p.dMin :=
      (SetStep_bounds LinearParameter.SetValue hk p step).1
    have e2 : (p.SetStep LinearParameter.SetValue step).dMax = p.dMax :=
      (SetStep_bounds LinearParameter.SetValue hk p step).2.1
    have e3 : (p.SetStep LinearParameter.SetValue step).dValueSaved = p.dValueSaved := by
      unfold LinearParameter.SetStep
      rw [SetValue_saved]
      split_ifs <;> rfl
    show (p.SetStep LinearParameter.SetValue step).dMin
        ≤ (p.SetStep LinearParameter.SetValue step).dValueSaved ∧
      (p.SetStep LinearParameter.SetValue step).dValueSaved
        ≤ (p.SetStep LinearParameter.SetValue step).dMax
    rw [e1, e2, e3]
    exact hs h

theorem trace_disciplined (calls : List DomainCall) (p : LinearParameter) (hp : p.InDomain)
    (saved : Bool) (hs : saved = true → p.dMin ≤ p.dValueSaved ∧ p.dValueSaved ≤ p.dMax)
    (hd : DomainCall.Disciplined saved calls) :
    ∀ q ∈ DomainCall.trace p calls, q.InDomain ∧ q.dMin ≤ q.dMax := by
  induction calls generalizing p saved with
  | nil => intro q hq; simp [DomainCall.trace] at hq
  | cons c cs ih =>
    intro q hq
    obtain ⟨hstep, saved2, hd2, hs2⟩ := run_disciplined p hp saved hs c cs hd
    simp only [DomainCall.trace, List.mem_cons] at hq
    rcases hq with rfl | hq
    · exact ⟨hstep, Double.le_of_le_of_le hstep.1 hstep.2⟩
    · exact ih _ hstep saved2 hs2 hd2 q hq

/-- C19 (amended): from a state with `min <= value <= max` (hence `min <= max`),
the predicate holds after each call of any sequence of `Save`, `Restore`,
`InitSweep`, `SetMin`, `SetMax` and `SetStep` calls in which no `SetMin` or
`SetMax` argument is NaN and every `Restore()` follows a `Save()` of the
sequence with no `SetMin` or `SetMax` call in between. -/
theorem value_domain_invariant (p : LinearParameter) (hp : p.InDomain)
    (calls : List DomainCall) (hd : DomainCall.Disciplined false calls) :
    ∀ q ∈ DomainCall.trace p calls, q.InDomain ∧ q.dMin ≤ q.dMax :=
  trace_disciplined calls p hp false (fun h => absurd h (by decide)) hd

/-- Instance of C19 (amended): `SetMin(2); Save(); SetStep(-1); InitSweep();
Restore(); SetMax(3)` on the sample parameter. -/
theorem value_domain_invariant_witness :
    sampleLinear.InDomain ∧
    DomainCall.Disciplined false
      [DomainCall.SetMin (Double.fin 2), DomainCall.Save, DomainCall.SetStep (Double.fin (-1)),
        DomainCall.InitSweep, DomainCall.Restore, DomainCall.SetMax (Double.fin 3)] ∧
    ∀ q ∈ DomainCall.trace sampleLinear
      [DomainCall.SetMin (Double.fin 2), DomainCall.Save, DomainCall.SetStep (Double.fin (-1)),
        DomainCall.InitSweep, DomainCall.Restore, DomainCall.SetMax (Double.fin 3)],
      q.InDomain ∧ q.dMin ≤ q.dMax := by
  have hd : DomainCall.Disciplined false
      [DomainCall.SetMin (Double.fin 2), DomainCall.Save, DomainCall.SetStep (Double.fin (-1)),
        DomainCall.InitSweep, DomainCall.Restore, DomainCall.SetMax (Double.fin 3)] := by
    simp [DomainCall.Disciplined]
  exact ⟨by decide, hd, value_domain_invariant sampleLinear (by decide) _ hd⟩

end CSXCAD
